import Mathlib

/-!
Verification of the kcomprs color-quantization tool (Rust sources:
`src/cli.rs`, `src/main.rs`, `src/kmeans/model.rs`, `src/kmeans/cluster.rs`).

The Rust code is shallowly embedded below.  `f64` values are modelled as
exact rationals `ℚ` (real arithmetic) except where a square root is
required, in which case the corresponding definitions are stated over `ℝ`.
Rust panics (index out of bounds, sampling an empty random range) are
modelled as `Option.none`.  The two sources of randomness in
`Model::initialize_mean` — the uniformly drawn first-centroid index and the
per-round uniform draws in `[0,1)` — are passed in as explicit parameters.
-/

/- The Batteries rational primitives are `@[irreducible]`, which blocks
evaluation of concrete instances by `decide`; restore the default
transparency for them in this file. -/
attribute [local semireducible] Rat.mul Rat.add Rat.inv Rat.sub

/-- A 4-channel pixel sample, `[f64; 4]` in the source (`model.rs`:
`pub type Dataset = Vec<[f64; 4]>`). -/
structure Vec4 (α : Type) where
  c0 : α
  c1 : α
  c2 : α
  c3 : α
deriving DecidableEq, Repr

/-- Samples of the executable (rational) embedding. -/
abbrev Sample := Vec4 ℚ

/-- The all-zero sample, `[0f64; 4]` in the source. -/
def zero4 : Sample := ⟨0, 0, 0, 0⟩

/-- Componentwise sum of two samples (used for the accumulators `cn[n]` in
`Trainer::fit`). -/
def Vec4.add (a b : Sample) : Sample :=
  ⟨a.c0 + b.c0, a.c1 + b.c1, a.c2 + b.c2, a.c3 + b.c3⟩

/-- Componentwise scaling of a sample (the `cn[i][j] *= scale` step in
`Trainer::fit`). -/
def Vec4.smul (q : ℚ) (a : Sample) : Sample :=
  ⟨q * a.c0, q * a.c1, q * a.c2, q * a.c3⟩

/-- Sum of a list of samples. -/
def sumSamples (l : List Sample) : Sample :=
  l.foldr Vec4.add zero4

/-- `cluster.rs`: `euclidean_distance_squared` — the sum of squared
componentwise differences (the same accumulation loop as in
`euclidean_distance`, without the final square root).  Generic in the
coefficient ring so that it can be used both in the executable `ℚ`
embedding and in the `ℝ` statements that involve the square root. -/
def euclidean_distance_squared {α : Type} [CommRing α] (a b : Vec4 α) : α :=
  (a.c0 - b.c0) * (a.c0 - b.c0) + (a.c1 - b.c1) * (a.c1 - b.c1) +
    (a.c2 - b.c2) * (a.c2 - b.c2) + (a.c3 - b.c3) * (a.c3 - b.c3)

/-- `cluster.rs`: `euclidean_distance` — square root of the sum of squared
componentwise differences.  Stated over `ℝ` because exact rationals have no
square root. -/
noncomputable def euclidean_distance (a b : Vec4 ℝ) : ℝ :=
  Real.sqrt (euclidean_distance_squared a b)

/-- `model.rs` lines 99-105: the minimum metric distance from sample `x` to
the already chosen centroids `c :: cs` (`l = dist(centroids[0], x)`, then
`for g in 1..i { if f < l { l = f } }`). -/
def minDistList {α β : Type} [LinearOrder α] (dist : β → β → α)
    (c : β) (cs : List β) (x : β) : α :=
  cs.foldl (fun l cg => let f := dist cg x; if f < l then f else l) (dist c x)

/-- `model.rs` line 107: the k-means++ selection weight of a sample,
`d[j] = l * l` where `l` is the minimum metric distance to the centroids
chosen so far. -/
def seedWeight {α β : Type} [LinearOrder α] [Mul α] (dist : β → β → α)
    (c : β) (cs : List β) (x : β) : α :=
  minDistList dist c cs x * minDistList dist c cs x

/-- `model.rs` lines 112-120: the cumulative-weight walk.  State: running
sum `s`, threshold `t`, current index `k`, remaining weights.  Returns
`none` when the walk runs past the end of the weight vector, which in the
Rust source is an out-of-bounds panic on `d[k]`. -/
def selectWalk : ℚ → ℚ → ℕ → List ℚ → Option ℕ
  | s, t, k, rest =>
    if t ≤ s then some k
    else
      match rest with
      | [] => none
      | d :: rest => selectWalk (s + d) t (k + 1) rest

/-- `model.rs` lines 96-122, one round of the seeding loop: compute the
weights `d`, their sum `s`, the threshold `t = r * s` (where
`r = random_range(0.0..1.0)`), and walk the cumulative sum to pick the new
centroid.  `chosen` must be nonempty (it holds `centroids[0..i]`). -/
def seedNext (dist : Sample → Sample → ℚ) (data : List Sample)
    (chosen : List Sample) (r : ℚ) : Option Sample :=
  match chosen with
  | [] => none
  | c :: cs =>
    let d := data.map (fun x => seedWeight dist c cs x)
    let s := d.sum
    let t := r * s
    match d with
    | [] => none
    | d0 :: drest => (selectWalk d0 t 0 drest).map (fun k => data.getD k zero4)

/-- The `for i in 1..self.k` loop of `Model::initialize_mean`: repeatedly
choose the next centroid, appending it to the list of chosen ones.
`rs i` is the uniform draw used in round `i`. -/
def seedLoop (dist : Sample → Sample → ℚ) (data : List Sample) (rs : ℕ → ℚ) :
    ℕ → ℕ → List Sample → Option (List Sample)
  | _, 0, chosen => some chosen
  | i, remaining + 1, chosen =>
    match seedNext dist data chosen (rs i) with
    | none => none
    | some c => seedLoop dist data rs (i + 1) remaining (chosen ++ [c])

/-- `model.rs` lines 93-123, `Model::initialize_mean`.  The first centroid
is `data[firstIdx % len]` (modelling `rand::rng().random_range(0..len)`,
which always yields an in-range index); the remaining `k - 1` centroids are
chosen by the weighted walk.  With empty data the source panics in
`random_range(0..0)`; with `k = 0` the source panics writing
`self.centroids[0]`; both are modelled as `none`. -/
def initialize_mean (dist : Sample → Sample → ℚ) (k : ℕ) (data : List Sample)
    (firstIdx : ℕ) (rs : ℕ → ℚ) : Option (List Sample) :=
  match data, k with
  | [], _ => none
  | _ :: _, 0 => none
  | x :: xs, kk + 1 =>
    let c0 := (x :: xs).getD (firstIdx % (x :: xs).length) x
    seedLoop dist (x :: xs) rs 1 kk [c0]

/-- `model.rs` lines 37-45: index of the nearest centroid to `x` under the
configured metric — linear scan, strict `<` update, so the first centroid
wins ties. -/
def nearestIdx (dist : Sample → Sample → ℚ) (centroids : List Sample)
    (x : Sample) : ℕ :=
  match centroids with
  | [] => 0
  | c :: cs =>
    (cs.foldl
      (fun (p : ℚ × ℕ × ℕ) cj =>
        let d := dist cj x
        if d < p.1 then (d, p.2.2, p.2.2 + 1) else (p.1, p.2.1, p.2.2 + 1))
      (dist c x, 0, 1)).2.1

/-- `model.rs` lines 59-72: the new value of centroid `n` — the
componentwise sum of the samples mapped to `n` this round, scaled by
`1 / cb[n]`.  (When no sample maps to `n`, the source divides by zero,
producing `inf`/`NaN` in `f64`; in `ℚ`, `1 / 0 = 0`.  None of the theorems
below depend on that degenerate value.) -/
def clusterMean (data : List Sample) (mapping : List ℕ) (n : ℕ) : Sample :=
  let members := (data.zip mapping).filterMap
    (fun p => if p.2 = n then some p.1 else none)
  Vec4.smul (1 / (members.length : ℚ)) (sumSamples members)

/-- One refinement iteration of `Trainer::fit` (lines 35-72): reassign
every sample to its nearest centroid, count label changes against the old
mapping, and recompute every centroid as the mean of its new members.
Returns the new `(mapping, centroids)` state and the change count. -/
def iterateStep (dist : Sample → Sample → ℚ) (data : List Sample)
    (st : List ℕ × List Sample) : (List ℕ × List Sample) × ℕ :=
  let newMapping := data.map (fun x => nearestIdx dist st.2 x)
  let changes := (st.1.zip newMapping).countP (fun p => p.1 != p.2)
  let newCentroids := (List.range st.2.length).map (clusterMean data newMapping)
  ((newMapping, newCentroids), changes)

/-- The `loop` of `Trainer::fit` (lines 28-77): run `step` while fuel
(`max_iterations - iter`) remains; stop early as soon as a round's change
count is strictly below the threshold.  Returns the final state and the
number of iterations actually executed. -/
def fitLoop {St : Type} (step : St → St × ℕ) (threshold : ℕ) :
    ℕ → St → St × ℕ
  | 0, st => (st, 0)
  | fuel + 1, st =>
    let p := step st
    if p.2 < threshold then (p.1, 1)
    else
      let q := fitLoop step threshold fuel p.1
      (q.1, q.2 + 1)

/-- The fitted model (`pub struct Model`): final centroids, per-sample
cluster labels, and the number of iterations executed. -/
structure ModelQ where
  centroids : List Sample
  mapping : List ℕ
  iter : ℕ
deriving DecidableEq, Repr

/-- `model.rs` lines 14-81, `Trainer::fit`.  `change_threshold` is
`(data.len() as f64 * delta) as usize`: truncation toward zero, saturating
at 0 for negative values, which `Int.toNat ∘ Rat.floor` reproduces for all
arguments.  The initial mapping is `vec![0; data.len()]`. -/
def fit (k : ℕ) (dist : Sample → Sample → ℚ) (maxIterations : ℕ) (delta : ℚ)
    (data : List Sample) (firstIdx : ℕ) (rs : ℕ → ℚ) : Option ModelQ :=
  match initialize_mean dist k data firstIdx rs with
  | none => none
  | some centroids0 =>
    let threshold := (Rat.floor ((data.length : ℚ) * delta)).toNat
    let r := fitLoop (iterateStep dist data) threshold maxIterations
      (List.replicate data.length 0, centroids0)
    some ⟨r.1.2, r.1.1, r.2⟩

/-- `cli.rs` lines 90-94, `default_concurrency`: the clap default for
`--concurrency`, `max(num_cpus, 1)`. -/
def default_concurrency (numCpus : ℕ) : ℕ := max numCpus 1

/-- `cli.rs` lines 115-129, the concurrency fix-up in `Cli::new`: the local
`default_concurrency` there is `min(num, 1)`, and it replaces the parsed
value whenever `concurrency <= 0`. -/
def cliNewConcurrency (configured numCpus : ℕ) : ℕ :=
  if configured ≤ 0 then min numCpus 1 else configured

/-- `cli.rs` lines 254-275, the series expansion of `Cli::read_images`:
`step = colors / s`; if `step <= 1` then `start = 2`, `step = 1`,
`s = colors`; the loop `for i in start..s` pushes one job with
`config.colors = step * i` per pass. -/
def seriesKs (colors s : ℕ) : List ℕ :=
  let step := colors / s
  if step ≤ 1 then List.range' 2 (colors - 2)
  else (List.range' 1 (s - 1)).map (fun i => step * i)

/-- `cli.rs` lines 254-283: the `colors` values of all jobs emitted for one
decoded image — the series jobs (when a series is requested) followed by
the final job at the full requested `colors`. -/
def emittedKs (colors : ℕ) (series : Option ℕ) : List ℕ :=
  (match series with
   | none => []
   | some s => seriesKs colors s) ++ [colors]

/-- `cli.rs` lines 131-171, `Cli::execute`: which jobs get processed.
With an empty pool nothing runs; with one job or `concurrency <= 1` the
jobs run sequentially (all of them); otherwise `concurrency` workers are
spawned and each performs exactly one lock/`Vec::pop`/process sequence and
returns.  The pops are serialized by the mutex and `Vec::pop` removes the
last element, so independently of thread interleaving the multiset of
processed jobs is the last `min(concurrency, len)` elements of the pool. -/
def dispatchProcessed {α : Type} (jobs : List α) (concurrency : ℕ) : List α :=
  if jobs.isEmpty then []
  else if jobs.length = 1 ∨ concurrency ≤ 1 then jobs
  else jobs.reverse.take (min concurrency jobs.length)

/-- The two distance-metric variants selectable via `--dalgo`. -/
inductive MetricChoice
  | euclidean
  | euclideanSquared
deriving DecidableEq, Repr

/-- `cli.rs` lines 372-376: the metric chosen from the `--dalgo` string —
`"EuclideanDistanceSquared"` selects the squared variant, every other
string falls to the wildcard arm and selects `euclidean_distance`. -/
def selectMetric (s : String) : MetricChoice :=
  if s = "EuclideanDistanceSquared" then MetricChoice.euclideanSquared
  else MetricChoice.euclidean

/-- Environment of one `handle_image` call (`cli.rs` lines 301-431): the
outcomes of the filesystem and codec interactions it performs, which fully
determine its control flow. -/
structure JobEnv where
  /-- `filepath.file_name()` is `Some` (otherwise the `expect` panics). -/
  hasFilename : Bool
  /-- the filename converts to UTF-8 (`to_str().is_some()`). -/
  filenameUtf8 : Bool
  /-- `fs::metadata(outfile)` succeeds, i.e. the output path exists. -/
  outfileExists : Bool
  /-- the existing output path is a regular file. -/
  outfileIsFile : Bool
  /-- the `--overwrite` flag. -/
  overwrite : Bool
  /-- the jpeg quality (`config.jpeg`, 0 = write png). -/
  jpeg : ℕ
  /-- `File::create(outfile)` succeeds (jpeg path only). -/
  createOk : Bool
  /-- `img.write_with_encoder(encoder)` succeeds (jpeg path only). -/
  encodeOk : Bool
  /-- `img.save(outfile)` succeeds (png path only). -/
  saveOk : Bool
deriving DecidableEq, Repr

/-- What one `handle_image` call did, beyond its return value. -/
inductive JobOutcome
  | skippedExisting
  | skippedNotFile
  | completed
  | writeFailed
deriving DecidableEq, Repr

/-- Result of `handle_image`: a panic, the `Err` return for an
un-convertible filename (line 305), or `Ok` with the outcome reached. -/
inductive JobResult
  | panicked
  | invalidFilename
  | ok (o : JobOutcome)
deriving DecidableEq, Repr

/-- `cli.rs` lines 301-431, `handle_image` control flow.  After the
filename checks and the existing-output checks, the write result is: on
the jpeg path, `Ok(())` when `File::create` fails (lines 397-401 log the
error and yield `Ok(())`) and otherwise the encoder result; on the png
path, `img.save`.  Both arms of the final `match` fall through to the
`Ok(())` at line 430, so a failed write still returns `Ok`. -/
def handle_image (env : JobEnv) : JobResult :=
  if env.hasFilename = false then JobResult.panicked
  else if env.filenameUtf8 = false then JobResult.invalidFilename
  else if env.outfileExists = true ∧ env.overwrite = false then
    JobResult.ok JobOutcome.skippedExisting
  else if env.outfileExists = true ∧ env.outfileIsFile = false then
    JobResult.ok JobOutcome.skippedNotFile
  else
    let writeOk : Bool :=
      if 0 < env.jpeg then (if env.createOk = true then env.encodeOk else true)
      else env.saveOk
    if writeOk = true then JobResult.ok JobOutcome.completed
    else JobResult.ok JobOutcome.writeFailed

/-- Whether `handle_image` reaches the write section (line 394: the
`File::create`/`img.save` calls) at all: it does exactly when the filename
checks pass and no existing-output early return fires. -/
def attemptsWrite (env : JobEnv) : Bool :=
  if env.hasFilename = false then false
  else if env.filenameUtf8 = false then false
  else if env.outfileExists = true ∧ env.overwrite = false then false
  else if env.outfileExists = true ∧ env.outfileIsFile = false then false
  else true

/-- Componentwise mean of a dataset, as the spec words it: each channel is
the sum of that channel over all samples, divided by the number of
samples. -/
def meanSample (data : List Sample) : Sample :=
  ⟨(sumSamples data).c0 / (data.length : ℚ),
   (sumSamples data).c1 / (data.length : ℚ),
   (sumSamples data).c2 / (data.length : ℚ),
   (sumSamples data).c3 / (data.length : ℚ)⟩

/-- Squared Euclidean distance from `x` to its nearest centroid among
`c :: cs` — the quantity the spec says each seeding weight equals: the
minimum over the chosen centroids of the squared Euclidean distance. -/
def sqDistToNearest (c : Vec4 ℝ) (cs : List (Vec4 ℝ)) (x : Vec4 ℝ) : ℝ :=
  (cs.map (fun cg => euclidean_distance_squared cg x)).foldl min
    (euclidean_distance_squared c x)

/-- State after `j` applications of an iteration step (dropping the change
counts). -/
def applyIters {St : Type} (step : St → St × ℕ) (st : St) : ℕ → St
  | 0 => st
  | j + 1 => (step (applyIters step st j)).1

/-- Change count reported by the `j`-th iteration (1-based) of `step`
starting from `st`. -/
def changesAtIter {St : Type} (step : St → St × ℕ) (st : St) : ℕ → ℕ
  | 0 => 0
  | j + 1 => (step (applyIters step st j)).2

/-- C1 (code behavior at the failing input): dispatching a pool of 3 jobs
with worker budget 2 processes only 2 of the 3 jobs — each spawned worker
pops a single job and returns, so the job at the front of the pool is
never claimed, contradicting the claim that every job is processed when
`w < N`. -/
theorem c1_dispatch_drops_jobs :
    (dispatchProcessed [0, 1, 2] 2).length = 2 ∧ 0 ∉ dispatchProcessed [0, 1, 2] 2 := by
  decide

/-- C2 (code behavior at the failing input): on a machine with 8 CPUs, a
configured concurrency of 0 yields an effective worker budget of
`min 8 1 = 1` in `Cli::new`, not the CPU count 8 that the sibling
`default_concurrency` (and the claim) produce. -/
theorem c2_auto_concurrency_is_one :
    cliNewConcurrency 0 8 = 1 ∧ default_concurrency 8 = 8 ∧
      cliNewConcurrency 0 8 ≠ default_concurrency 8 := by
  decide

/-- C7: fitting with `k = 0` never returns a fitted model: the source
panics writing `centroids[0]` in `initialize_mean` (modelled as `none`),
so no model with empty centroid structures is produced. -/
theorem c7_fit_k0_fails (dist : Sample → Sample → ℚ) (maxIter : ℕ) (delta : ℚ)
    (data : List Sample) (fi : ℕ) (rs : ℕ → ℚ) (hd : data ≠ []) :
    fit 0 dist maxIter delta data fi rs = none := by
  cases data with
  | nil => exact absurd rfl hd
  | cons x xs => rfl

/-- C7 witness: the theorem at a concrete nonempty dataset. -/
theorem c7_witness :
    ([⟨0, 0, 0, 0⟩] : List Sample) ≠ [] ∧
      fit 0 euclidean_distance_squared 100 (1/200) [⟨0, 0, 0, 0⟩] 0 (fun _ => 0) = none :=
  ⟨by decide, c7_fit_k0_fails euclidean_distance_squared 100 (1/200) [⟨0, 0, 0, 0⟩] 0
    (fun _ => 0) (by decide)⟩

/-- C9: when the computed output path exists and overwrite is not set,
`handle_image` returns `Ok` (the skip outcome) before ever reaching the
write section, so no write to the output path occurs. -/
theorem c9_skip_existing (env : JobEnv) (h1 : env.hasFilename = true)
    (h2 : env.filenameUtf8 = true) (h3 : env.outfileExists = true)
    (h4 : env.overwrite = false) :
    handle_image env = JobResult.ok JobOutcome.skippedExisting ∧
      attemptsWrite env = false := by
  unfold handle_image attemptsWrite
  simp [h1, h2, h3, h4]

/-- C9 witness: the theorem at a concrete environment. -/
theorem c9_witness :
    (⟨true, true, true, true, false, 0, true, true, true⟩ : JobEnv).hasFilename = true ∧
    (⟨true, true, true, true, false, 0, true, true, true⟩ : JobEnv).filenameUtf8 = true ∧
    (⟨true, true, true, true, false, 0, true, true, true⟩ : JobEnv).outfileExists = true ∧
    (⟨true, true, true, true, false, 0, true, true, true⟩ : JobEnv).overwrite = false ∧
    (handle_image ⟨true, true, true, true, false, 0, true, true, true⟩ =
        JobResult.ok JobOutcome.skippedExisting ∧
      attemptsWrite ⟨true, true, true, true, false, 0, true, true, true⟩ = false) :=
  ⟨rfl, rfl, rfl, rfl, c9_skip_existing ⟨true, true, true, true, false, 0, true, true, true⟩
    rfl rfl rfl rfl⟩

/-- C10: every `--dalgo` string other than the exact
`"EuclideanDistanceSquared"` falls to the wildcard arm and selects the
Euclidean metric; the selection is total, so an unrecognized name never
fails the job. -/
theorem c10_unknown_metric_is_euclidean (s : String)
    (h : s ≠ "EuclideanDistanceSquared") :
    selectMetric s = MetricChoice.euclidean := by
  unfold selectMetric
  simp [h]

/-- C10 witness: the theorem at a concrete misspelled metric name. -/
theorem c10_witness :
    ("EuclidianDistanceSquared" : String) ≠ "EuclideanDistanceSquared" ∧
      selectMetric ("EuclidianDistanceSquared") = MetricChoice.euclidean :=
  ⟨by decide, c10_unknown_metric_is_euclidean ("EuclidianDistanceSquared") (by decide)⟩

/-- C8 counterexample: a job whose png save fails (`saveOk = false`, all
checks passing) makes `handle_image` return `Ok` — the `ok writeFailed`
outcome — not an error, refuting the claim that the handler returns an
error on output failures. -/
theorem c8_counterexample :
    handle_image ⟨true, true, false, true, false, 0, true, true, false⟩ =
        JobResult.ok JobOutcome.writeFailed ∧
      handle_image ⟨true, true, false, true, false, 0, true, true, false⟩ ≠
        JobResult.invalidFilename ∧
      handle_image ⟨true, true, false, true, false, 0, true, true, false⟩ ≠
        JobResult.panicked := by
  decide

/-- C8 amended: an output failure is only logged — `handle_image` returns
`Ok` to its caller: a failed encode (jpeg path) or failed save (png path)
yields `ok writeFailed`, and a failed `File::create` on the jpeg path is
even reported as `ok completed` (the error arm yields `Ok(())` as the
write result). -/
theorem c8_amended (env : JobEnv) (h1 : env.hasFilename = true)
    (h2 : env.filenameUtf8 = true) (hw : attemptsWrite env = true) :
    ((0 < env.jpeg ∧ env.createOk = true ∧ env.encodeOk = false) ∨
        (env.jpeg = 0 ∧ env.saveOk = false) →
      handle_image env = JobResult.ok JobOutcome.writeFailed) ∧
    (0 < env.jpeg ∧ env.createOk = false →
      handle_image env = JobResult.ok JobOutcome.completed) := by
  unfold attemptsWrite at hw
  unfold handle_image
  simp only [h1, h2] at *
  constructor
  · rintro (⟨hj, hc, he⟩ | ⟨hj, hs⟩) <;>
      · split_ifs at hw ⊢ <;> simp_all
  · rintro ⟨hj, hc⟩
    split_ifs at hw ⊢ <;> simp_all

/-- C8 witness: the amended theorem applied at a concrete environment
whose png save fails. -/
theorem c8_witness :
    attemptsWrite ⟨true, true, false, true, false, 0, true, true, false⟩ = true ∧
      handle_image ⟨true, true, false, true, false, 0, true, true, false⟩ =
        JobResult.ok JobOutcome.writeFailed :=
  ⟨rfl, (c8_amended ⟨true, true, false, true, false, 0, true, true, false⟩
    rfl rfl rfl).1 (Or.inr ⟨rfl, rfl⟩)⟩

/-- Occurrence count of an element in an arithmetic range with step 1. -/
theorem count_range' (k : ℕ) : ∀ (n a : ℕ),
    (List.range' a n).count k = if a ≤ k ∧ k < a + n then 1 else 0 := by
  intro n
  induction n with
  | zero => intro a; rw [if_neg (by omega)]; simp
  | succ n ih =>
    intro a
    rw [List.range'_succ, List.count_cons, ih (a + 1)]
    simp only [beq_iff_eq]
    split_ifs <;> omega

/-- C6: job k-values for a series request with `s > 1`.  In the fallback
branch (`step = colors / s ≤ 1`) every integer from 2 up to `colors`
appears exactly once among the emitted jobs; otherwise each `step * i`
for `1 ≤ i ≤ s - 1` is emitted; in every case exactly one emitted job has
`k = colors`, and the emitted k-values are strictly increasing. -/
theorem c6_series_k_values (colors s : ℕ) (hs : 2 ≤ s) :
    (colors / s ≤ 1 → ∀ k, 2 ≤ k → k ≤ colors →
        (emittedKs colors (some s)).count k = 1) ∧
    (1 < colors / s → ∀ i, 1 ≤ i → i ≤ s - 1 →
        colors / s * i ∈ emittedKs colors (some s)) ∧
    (emittedKs colors (some s)).count colors = 1 ∧
    (emittedKs colors (some s)).Pairwise (· < ·) := by
  have hdiv : colors / s * s ≤ colors := Nat.div_mul_le_self colors s
  have hbound : 1 < colors / s → ∀ i : ℕ, i < s → colors / s * i < colors := by
    intro hstep i hi
    have h1 : colors / s * i + colors / s ≤ colors / s * s := by
      have h2 : colors / s * (i + 1) ≤ colors / s * s :=
        Nat.mul_le_mul_left (colors / s) (by omega)
      calc colors / s * i + colors / s = colors / s * (i + 1) := by ring
        _ ≤ colors / s * s := h2
    have h3 : 2 ≤ colors / s := by omega
    linarith
  refine ⟨?_, ?_, ?_, ?_⟩
  · intro hstep k h2 hk
    simp only [emittedKs, seriesKs, if_pos hstep]
    rw [List.count_append, count_range' k (colors - 2) 2]
    rcases eq_or_lt_of_le hk with rfl | hlt
    · rw [if_neg (by omega)]
      simp [List.count_cons]
    · rw [if_pos (by omega)]
      have hz : List.count k [colors] = 0 := by
        simp only [List.count_cons, List.count_nil, beq_iff_eq]
        rw [if_neg (by omega)]
      omega
  · intro hstep i h1 hi
    simp only [emittedKs, seriesKs, if_neg (by omega : ¬ colors / s ≤ 1)]
    refine List.mem_append.2 (Or.inl ?_)
    exact List.mem_map.2 ⟨i, List.mem_range'_1.2 ⟨h1, by omega⟩, rfl⟩
  · by_cases hstep : colors / s ≤ 1
    · simp only [emittedKs, seriesKs, if_pos hstep]
      rw [List.count_append, count_range' colors (colors - 2) 2]
      rw [if_neg (by omega)]
      simp [List.count_cons]
    · simp only [emittedKs, seriesKs, if_neg hstep]
      rw [List.count_append]
      have hz :
          List.count colors ((List.range' 1 (s - 1)).map (fun i => colors / s * i)) = 0 := by
        rw [List.count_eq_zero]
        intro hmem
        rcases List.mem_map.1 hmem with ⟨i, hi, heq⟩
        rcases List.mem_range'_1.1 hi with ⟨hi1, hi2⟩
        have := hbound (by omega) i (by omega)
        omega
      rw [hz]
      simp [List.count_cons]
  · by_cases hstep : colors / s ≤ 1
    · simp only [emittedKs, seriesKs, if_pos hstep]
      rw [List.pairwise_append]
      refine ⟨List.pairwise_lt_range' 2 (colors - 2), List.pairwise_singleton _ _, ?_⟩
      intro a ha b hb
      rcases List.mem_range'_1.1 ha with ⟨ha1, ha2⟩
      rw [List.mem_singleton.1 hb]
      omega
    · simp only [emittedKs, seriesKs, if_neg hstep]
      rw [List.pairwise_append]
      refine ⟨?_, List.pairwise_singleton _ _, ?_⟩
      · rw [List.pairwise_map]
        refine List.Pairwise.imp ?_ (List.pairwise_lt_range' 1 (s - 1))
        intro a b hab
        exact mul_lt_mul_of_pos_left hab (by omega)
      · intro a ha b hb
        rw [List.mem_singleton.1 hb]
        rcases List.mem_map.1 ha with ⟨i, hi, heq⟩
        rcases List.mem_range'_1.1 hi with ⟨hi1, hi2⟩
        have := hbound (by omega) i (by omega)
        omega

/-- C6 witness: the theorem at the spec's own test point `colors = 10`,
`series = 4`. -/
theorem c6_witness :
    2 ≤ 4 ∧
    ((10 / 4 ≤ 1 → ∀ k, 2 ≤ k → k ≤ 10 →
        (emittedKs 10 (some 4)).count k = 1) ∧
     (1 < 10 / 4 → ∀ i, 1 ≤ i → i ≤ 4 - 1 →
        10 / 4 * i ∈ emittedKs 10 (some 4)) ∧
     (emittedKs 10 (some 4)).count 10 = 1 ∧
     (emittedKs 10 (some 4)).Pairwise (· < ·)) :=
  ⟨by decide, c6_series_k_values 10 4 (by decide)⟩

/-- With a single centroid the nearest-centroid scan returns label 0
without consulting the metric. -/
theorem nearestIdx_single (dist : Sample → Sample → ℚ) (c x : Sample) :
    nearestIdx dist [c] x = 0 := rfl

/-- Assigning against a single centroid labels every sample 0. -/
theorem map_nearestIdx_single (dist : Sample → Sample → ℚ) (c : Sample)
    (data : List Sample) :
    data.map (fun x => nearestIdx dist [c] x) = List.replicate data.length 0 := by
  induction data with
  | nil => rfl
  | cons y ys ih => simp [List.replicate_succ, ih, nearestIdx_single]

/-- Comparing a mapping against itself yields zero label changes. -/
theorem countP_zip_self (l : List ℕ) :
    (l.zip l).countP (fun p => p.1 != p.2) = 0 := by
  induction l with
  | nil => rfl
  | cons a l ih => simp [List.countP_cons, ih]

/-- Every sample is a member of cluster 0 under the all-zero mapping. -/
theorem filterMap_zip_replicate_zero (data : List Sample) :
    (data.zip (List.replicate data.length 0)).filterMap
      (fun p => if p.2 = 0 then some p.1 else none) = data := by
  induction data with
  | nil => rfl
  | cons y ys ih => simp [List.replicate_succ, List.filterMap_cons, ih]

/-- Under the all-zero mapping, the recomputed centroid 0 is the
componentwise mean of the whole dataset. -/
theorem clusterMean_single (data : List Sample) :
    clusterMean data (List.replicate data.length 0) 0 = meanSample data := by
  unfold clusterMean meanSample
  rw [filterMap_zip_replicate_zero]
  simp [Vec4.smul, one_div, inv_mul_eq_div]

/-- One unfolding of the refinement loop. -/
theorem fitLoop_succ {St : Type} (step : St → St × ℕ) (th fuel : ℕ) (st : St) :
    fitLoop step th (fuel + 1) st =
      if (step st).2 < th then ((step st).1, 1)
      else ((fitLoop step th fuel (step st).1).1,
        (fitLoop step th fuel (step st).1).2 + 1) := rfl

/-- One refinement iteration with a single centroid: the mapping stays
all-zero, no label changes, and the centroid becomes the dataset mean. -/
theorem iterateStep_single (dist : Sample → Sample → ℚ) (data : List Sample)
    (c : Sample) :
    iterateStep dist data (List.replicate data.length 0, [c]) =
      ((List.replicate data.length 0,
        [clusterMean data (List.replicate data.length 0) 0]), 0) := by
  unfold iterateStep
  rw [map_nearestIdx_single]
  simp [countP_zip_self, show List.range 1 = [0] from rfl]

/-- C3 amended: for a nonempty dataset, `k = 1`, at least one allowed
iteration, and a truncated change threshold of at least 1
(`⌊delta * n⌋ ≥ 1`), `fit` returns the componentwise mean as the single
centroid with `iter = 1`.  (Without the threshold condition the strict
`changes < threshold` test can never fire and the loop runs to the
iteration cap — see the counterexample.) -/
theorem c3_amended (dist : Sample → Sample → ℚ) (maxIter : ℕ) (delta : ℚ)
    (data : List Sample) (fi : ℕ) (rs : ℕ → ℚ)
    (hd : data ≠ []) (hm : 1 ≤ maxIter)
    (ht : 1 ≤ (Rat.floor ((data.length : ℚ) * delta)).toNat) :
    fit 1 dist maxIter delta data fi rs =
      some ⟨[meanSample data], List.replicate data.length 0, 1⟩ := by
  obtain ⟨x, xs, rfl⟩ : ∃ y ys, data = y :: ys := by
    cases data with
    | nil => exact absurd rfl hd
    | cons y ys => exact ⟨y, ys, rfl⟩
  obtain ⟨m, rfl⟩ := Nat.exists_eq_succ_of_ne_zero (by omega : maxIter ≠ 0)
  unfold fit
  have hinit : initialize_mean dist 1 (x :: xs) fi rs =
      some [(x :: xs).getD (fi % (x :: xs).length) x] := rfl
  rw [hinit]
  simp only
  rw [fitLoop_succ, iterateStep_single]
  rw [if_pos (by omega)]
  rw [clusterMean_single]

/-- C3 counterexample: with the default `delta = 0.005` and a 2-sample
dataset the truncated threshold is `⌊2 * 0.005⌋ = 0`, the strict
`changes < 0` test never fires, and fitting with `k = 1` and
`max_iterations = 2` executes 2 iterations, not 1 — refuting the
claim's `iterations_run = 1` for this configuration. -/
theorem c3_counterexample :
    (fit 1 euclidean_distance_squared 2 (1/200)
        [⟨0, 0, 0, 0⟩, ⟨8, 0, 0, 0⟩] 0 (fun _ => 0)).map ModelQ.iter = some 2 ∧
      (2 : ℕ) ≠ 1 := by
  decide

/-- C3 witness: the amended theorem at a dataset of two samples with
`delta = 1/2` (threshold `⌊2 * 1/2⌋ = 1`). -/
theorem c3_witness :
    ([⟨0, 0, 0, 0⟩, ⟨4, 0, 0, 0⟩] : List Sample) ≠ [] ∧ (1 : ℕ) ≤ 1 ∧
    1 ≤ (Rat.floor ((([⟨0, 0, 0, 0⟩, ⟨4, 0, 0, 0⟩] : List Sample).length : ℚ) *
          (1/2))).toNat ∧
    fit 1 euclidean_distance_squared 1 (1/2) [⟨0, 0, 0, 0⟩, ⟨4, 0, 0, 0⟩] 0
        (fun _ => 0) =
      some ⟨[meanSample [⟨0, 0, 0, 0⟩, ⟨4, 0, 0, 0⟩]], List.replicate 2 0, 1⟩ :=
  ⟨by decide, by decide, by decide,
    c3_amended euclidean_distance_squared 1 (1/2) [⟨0, 0, 0, 0⟩, ⟨4, 0, 0, 0⟩] 0
      (fun _ => 0) (by decide) (by decide) (by decide)⟩

/-- Shifting the start state of an iteration by one step. -/
theorem applyIters_shift {St : Type} (step : St → St × ℕ) (st : St) :
    ∀ j, applyIters step st (j + 1) = applyIters step (step st).1 j := by
  intro j
  induction j with
  | zero => rfl
  | succ j ih =>
    unfold applyIters
    rw [ih]

/-- Shifting the start state of the per-iteration change count. -/
theorem changesAtIter_shift {St : Type} (step : St → St × ℕ) (st : St) (j : ℕ)
    (hj : 1 ≤ j) :
    changesAtIter step st (j + 1) = changesAtIter step (step st).1 j := by
  obtain ⟨i, rfl⟩ := Nat.exists_eq_succ_of_ne_zero (by omega : j ≠ 0)
  show (step (applyIters step st (i + 1))).2 = (step (applyIters step (step st).1 i)).2
  rw [applyIters_shift]

/-- Characterization of the refinement loop: with at least one unit of
fuel, the loop executes between 1 and `fuel` iterations; every
non-final iteration saw at least `th` label changes; if the loop stopped
before exhausting the fuel then its final iteration saw fewer than `th`
changes; and the final state is the `iter`-fold application of the step
function. -/
theorem fitLoop_spec {St : Type} (step : St → St × ℕ) (th : ℕ) :
    ∀ (fuel : ℕ) (st : St), 1 ≤ fuel →
      1 ≤ (fitLoop step th fuel st).2 ∧
      (fitLoop step th fuel st).2 ≤ fuel ∧
      (∀ j, 1 ≤ j → j < (fitLoop step th fuel st).2 →
        th ≤ changesAtIter step st j) ∧
      ((fitLoop step th fuel st).2 < fuel →
        changesAtIter step st (fitLoop step th fuel st).2 < th) ∧
      (fitLoop step th fuel st).1 = applyIters step st (fitLoop step th fuel st).2 := by
  intro fuel
  induction fuel with
  | zero => intro st h; omega
  | succ f ih =>
    intro st _
    rw [fitLoop_succ]
    by_cases hc : (step st).2 < th
    · rw [if_pos hc]
      dsimp only
      refine ⟨le_refl 1, by omega, ?_, ?_, rfl⟩
      · intro j hj1 hj2
        omega
      · intro _
        exact hc
    · rw [if_neg hc]
      rcases Nat.eq_zero_or_pos f with rfl | hf
      · dsimp only [fitLoop]
        refine ⟨by omega, by omega, ?_, ?_, rfl⟩
        · intro j hj1 hj2
          omega
        · intro h
          omega
      · obtain ⟨h1, h2, h3, h4, h5⟩ := ih (step st).1 hf
        dsimp only
        refine ⟨by omega, by omega, ?_, ?_, ?_⟩
        · intro j hj1 hj2
          match j, hj1 with
          | 1, _ =>
            exact le_of_not_lt hc
          | (j + 2), _ =>
            show th ≤ changesAtIter step st ((j + 1) + 1)
            rw [changesAtIter_shift step st (j + 1) (by omega)]
            exact h3 (j + 1) (by omega) (by omega)
        · intro hlt
          rw [changesAtIter_shift step st (fitLoop step th f (step st).1).2 h1]
          exact h4 (by omega)
        · rw [h5, ← applyIters_shift]

/-- The cumulative-weight walk finds an index whenever the threshold is at
most the running sum plus the remaining total (in the source: the walk
cannot run past the end of `d` because `t = r * s` with `r < 1`). -/
theorem selectWalk_isSome (t : ℚ) :
    ∀ (rest : List ℚ) (s : ℚ) (k : ℕ), t ≤ s + rest.sum →
      (selectWalk s t k rest).isSome = true := by
  intro rest
  induction rest with
  | nil =>
    intro s k h
    rw [selectWalk, if_pos (by simpa using h)]
    rfl
  | cons d rest ih =>
    intro s k h
    rw [selectWalk]
    by_cases hts : t ≤ s
    · rw [if_pos hts]
      rfl
    · rw [if_neg hts]
      show (selectWalk (s + d) t (k + 1) rest).isSome = true
      refine ih (s + d) (k + 1) ?_
      rw [List.sum_cons] at h
      linarith

/-- Every k-means++ selection weight is non-negative. -/
theorem seedWeight_nonneg (dist : Sample → Sample → ℚ) (c : Sample)
    (cs : List Sample) (x : Sample) : 0 ≤ seedWeight dist c cs x :=
  mul_self_nonneg _

/-- One seeding round on nonempty data with a draw `r ∈ [0,1)` always
selects a centroid. -/
theorem seedNext_isSome (dist : Sample → Sample → ℚ) (x : Sample)
    (xs : List Sample) (c : Sample) (cs : List Sample) (r : ℚ)
    (hr0 : 0 ≤ r) (hr1 : r < 1) :
    (seedNext dist (x :: xs) (c :: cs) r).isSome = true := by
  have hs : 0 ≤ (((x :: xs).map (fun y => seedWeight dist c cs y)).sum) := by
    refine List.sum_nonneg ?_
    intro q hq
    rcases List.mem_map.1 hq with ⟨y, _, rfl⟩
    exact seedWeight_nonneg dist c cs y
  have hts : r * (((x :: xs).map (fun y => seedWeight dist c cs y)).sum) ≤
      (((x :: xs).map (fun y => seedWeight dist c cs y)).sum) := by
    calc r * (((x :: xs).map (fun y => seedWeight dist c cs y)).sum)
        ≤ 1 * (((x :: xs).map (fun y => seedWeight dist c cs y)).sum) :=
          mul_le_mul_of_nonneg_right (le_of_lt hr1) hs
      _ = _ := one_mul _
  have hwalk := selectWalk_isSome
    (r * (((x :: xs).map (fun y => seedWeight dist c cs y)).sum))
    ((xs).map (fun y => seedWeight dist c cs y))
    (seedWeight dist c cs x) 0
    (by
      rw [List.map_cons, List.sum_cons] at hts
      exact hts)
  obtain ⟨idx, hidx⟩ := Option.isSome_iff_exists.1 hwalk
  show ((selectWalk (seedWeight dist c cs x)
      (r * (((x :: xs).map (fun y => seedWeight dist c cs y)).sum)) 0
      (xs.map (fun y => seedWeight dist c cs y))).map
      (fun k => (x :: xs).getD k zero4)).isSome = true
  rw [hidx]
  rfl

/-- The seeding loop on nonempty data with draws in `[0,1)` always
completes. -/
theorem seedLoop_isSome (dist : Sample → Sample → ℚ) (x : Sample)
    (xs : List Sample) (rs : ℕ → ℚ) (hr : ∀ i, 0 ≤ rs i ∧ rs i < 1) :
    ∀ (rem i : ℕ) (c : Sample) (cs : List Sample),
      ∃ out, seedLoop dist (x :: xs) rs i rem (c :: cs) = some out := by
  intro rem
  induction rem with
  | zero =>
    intro i c cs
    exact ⟨c :: cs, rfl⟩
  | succ rem ih =>
    intro i c cs
    have hnext := seedNext_isSome dist x xs c cs (rs i) (hr i).1 (hr i).2
    obtain ⟨cnew, hc⟩ := Option.isSome_iff_exists.1 hnext
    have hred : seedLoop dist (x :: xs) rs i (rem + 1) (c :: cs) =
        seedLoop dist (x :: xs) rs (i + 1) rem (c :: (cs ++ [cnew])) := by
      show (match seedNext dist (x :: xs) (c :: cs) (rs i) with
        | none => none
        | some cn => seedLoop dist (x :: xs) rs (i + 1) rem ((c :: cs) ++ [cn])) = _
      rw [hc]
      rfl
    rw [hred]
    exact ih (i + 1) c (cs ++ [cnew])

/-- `initialize_mean` succeeds on nonempty data with `k ≥ 1` and draws in
`[0,1)`. -/
theorem initialize_mean_isSome (dist : Sample → Sample → ℚ) (k : ℕ)
    (x : Sample) (xs : List Sample) (fi : ℕ) (rs : ℕ → ℚ)
    (hk : 1 ≤ k) (hr : ∀ i, 0 ≤ rs i ∧ rs i < 1) :
    ∃ cs0, initialize_mean dist k (x :: xs) fi rs = some cs0 := by
  obtain ⟨kk, rfl⟩ := Nat.exists_eq_succ_of_ne_zero (by omega : k ≠ 0)
  exact seedLoop_isSome dist x xs rs hr kk 1
    ((x :: xs).getD (fi % (x :: xs).length) x) []

/-- C5 amended: for every nonempty dataset, `k ≥ 1`, `max_iterations ≥ 1`
and uniform draws in `[0,1)`, `fit` returns a model whose `iter` lies in
`[1, max_iterations]` and the loop stops early exactly on the strict
`changes < ⌊delta * n⌋` test: every non-final iteration changed at least
`⌊delta * n⌋` labels, and if the loop stopped before the cap then its
final iteration changed fewer.  (With `max_iterations = 0` the loop body
never runs and `iter = 0` — see the counterexample.) -/
theorem c5_amended (dist : Sample → Sample → ℚ) (k maxIter : ℕ) (delta : ℚ)
    (data : List Sample) (fi : ℕ) (rs : ℕ → ℚ)
    (hd : data ≠ []) (hk : 1 ≤ k) (hm : 1 ≤ maxIter)
    (hr : ∀ i, 0 ≤ rs i ∧ rs i < 1) :
    ∃ (m : ModelQ) (cs0 : List Sample),
      initialize_mean dist k data fi rs = some cs0 ∧
      fit k dist maxIter delta data fi rs = some m ∧
      1 ≤ m.iter ∧ m.iter ≤ maxIter ∧
      (∀ j, 1 ≤ j → j < m.iter →
        (Rat.floor ((data.length : ℚ) * delta)).toNat ≤
          changesAtIter (iterateStep dist data)
            (List.replicate data.length 0, cs0) j) ∧
      (m.iter < maxIter →
        changesAtIter (iterateStep dist data)
            (List.replicate data.length 0, cs0) m.iter <
          (Rat.floor ((data.length : ℚ) * delta)).toNat) ∧
      m.mapping = (applyIters (iterateStep dist data)
        (List.replicate data.length 0, cs0) m.iter).1 ∧
      m.centroids = (applyIters (iterateStep dist data)
        (List.replicate data.length 0, cs0) m.iter).2 := by
  obtain ⟨x, xs, rfl⟩ : ∃ y ys, data = y :: ys := by
    cases data with
    | nil => exact absurd rfl hd
    | cons y ys => exact ⟨y, ys, rfl⟩
  obtain ⟨cs0, hinit⟩ := initialize_mean_isSome dist k x xs fi rs hk hr
  obtain ⟨h1, h2, h3, h4, h5⟩ :=
    fitLoop_spec (iterateStep dist (x :: xs))
      ((Rat.floor (((x :: xs).length : ℚ) * delta)).toNat) maxIter
      (List.replicate (x :: xs).length 0, cs0) hm
  refine ⟨⟨(fitLoop (iterateStep dist (x :: xs))
      ((Rat.floor (((x :: xs).length : ℚ) * delta)).toNat) maxIter
      (List.replicate (x :: xs).length 0, cs0)).1.2,
    (fitLoop (iterateStep dist (x :: xs))
      ((Rat.floor (((x :: xs).length : ℚ) * delta)).toNat) maxIter
      (List.replicate (x :: xs).length 0, cs0)).1.1,
    (fitLoop (iterateStep dist (x :: xs))
      ((Rat.floor (((x :: xs).length : ℚ) * delta)).toNat) maxIter
      (List.replicate (x :: xs).length 0, cs0)).2⟩, cs0, hinit, ?_,
    h1, h2, h3, h4, ?_, ?_⟩
  · unfold fit
    rw [hinit]
  · rw [h5]
  · rw [h5]

/-- C5 counterexample: a configuration with `max_iterations = 0` is
allowed by the spec (`max_iterations ≥ 0`), and there `fit` returns
`iterations_run = 0`, which does not lie between 1 and
`max_iterations` — refuting the claim's range for this configuration. -/
theorem c5_counterexample :
    (fit 1 euclidean_distance_squared 0 (1/200) [⟨0, 0, 0, 0⟩] 0
        (fun _ => 0)).map ModelQ.iter = some 0 ∧ ¬ (1 : ℕ) ≤ 0 := by
  decide

/-- C5 witness: the amended theorem at a concrete configuration. -/
theorem c5_witness :
    ([⟨0, 0, 0, 0⟩] : List Sample) ≠ [] ∧ (1 : ℕ) ≤ 1 ∧
    (∃ (m : ModelQ) (cs0 : List Sample),
      initialize_mean euclidean_distance_squared 1 [⟨0, 0, 0, 0⟩] 0
          (fun _ => 0) = some cs0 ∧
      fit 1 euclidean_distance_squared 1 (1/200) [⟨0, 0, 0, 0⟩] 0
          (fun _ => 0) = some m ∧
      1 ≤ m.iter ∧ m.iter ≤ 1 ∧
      (∀ j, 1 ≤ j → j < m.iter →
        (Rat.floor ((([⟨0, 0, 0, 0⟩] : List Sample).length : ℚ) *
            (1/200))).toNat ≤
          changesAtIter (iterateStep euclidean_distance_squared [⟨0, 0, 0, 0⟩])
            (List.replicate ([⟨0, 0, 0, 0⟩] : List Sample).length 0, cs0) j) ∧
      (m.iter < 1 →
        changesAtIter (iterateStep euclidean_distance_squared [⟨0, 0, 0, 0⟩])
            (List.replicate ([⟨0, 0, 0, 0⟩] : List Sample).length 0, cs0) m.iter <
          (Rat.floor ((([⟨0, 0, 0, 0⟩] : List Sample).length : ℚ) *
            (1/200))).toNat) ∧
      m.mapping = (applyIters (iterateStep euclidean_distance_squared [⟨0, 0, 0, 0⟩])
        (List.replicate ([⟨0, 0, 0, 0⟩] : List Sample).length 0, cs0) m.iter).1 ∧
      m.centroids = (applyIters (iterateStep euclidean_distance_squared [⟨0, 0, 0, 0⟩])
        (List.replicate ([⟨0, 0, 0, 0⟩] : List Sample).length 0, cs0) m.iter).2) :=
  ⟨by decide, by decide,
    c5_amended euclidean_distance_squared 1 1 (1/200) [⟨0, 0, 0, 0⟩] 0
      (fun _ => 0) (by decide) (by decide) (by decide)
      (fun i => ⟨le_refl 0, zero_lt_one⟩)⟩

/-- The squared Euclidean distance is a sum of four squares, hence
non-negative. -/
theorem euclidean_distance_squared_nonneg (a b : Vec4 ℝ) :
    0 ≤ euclidean_distance_squared a b := by
  unfold euclidean_distance_squared
  have h0 := mul_self_nonneg (a.c0 - b.c0)
  have h1 := mul_self_nonneg (a.c1 - b.c1)
  have h2 := mul_self_nonneg (a.c2 - b.c2)
  have h3 := mul_self_nonneg (a.c3 - b.c3)
  linarith

/-- The source's `if f < l { l = f }` update computes a running minimum. -/
theorem foldl_if_lt_eq_foldl_min {α β : Type} [LinearOrder α] (g : β → α) :
    ∀ (cs : List β) (l : α),
      cs.foldl (fun l c => if g c < l then g c else l) l =
        cs.foldl (fun l c => min l (g c)) l := by
  intro cs
  induction cs with
  | nil => intro l; rfl
  | cons c cs ih =>
    intro l
    rw [List.foldl_cons, List.foldl_cons, ih]
    congr 1
    rcases lt_or_ge (g c) l with h | h
    · rw [if_pos h, min_eq_right (le_of_lt h)]
    · rw [if_neg (not_lt.2 h), min_eq_left h]

/-- The minimum metric distance, as a fold of `min` over the mapped
distance list. -/
theorem minDistList_eq_fold_min {α β : Type} [LinearOrder α]
    (dist : β → β → α) (c : β) (cs : List β) (x : β) :
    minDistList dist c cs x =
      (cs.map (fun cg => dist cg x)).foldl min (dist c x) := by
  unfold minDistList
  rw [List.foldl_map]
  exact foldl_if_lt_eq_foldl_min (fun cg => dist cg x) cs (dist c x)

/-- Under the squared-Euclidean metric the running minimum of the scan is
exactly the squared Euclidean distance to the nearest chosen centroid. -/
theorem minDistList_sq_eq (c : Vec4 ℝ) (cs : List (Vec4 ℝ)) (x : Vec4 ℝ) :
    minDistList euclidean_distance_squared c cs x = sqDistToNearest c cs x := by
  rw [minDistList_eq_fold_min]
  rfl

/-- A fold of `min` over non-negative values starting from a non-negative
value stays non-negative. -/
theorem foldl_min_nonneg : ∀ (l : List ℝ) (init : ℝ), 0 ≤ init →
    (∀ y ∈ l, 0 ≤ y) → 0 ≤ l.foldl min init := by
  intro l
  induction l with
  | nil =>
    intro init h _
    simpa using h
  | cons a l ih =>
    intro init h hall
    rw [List.foldl_cons]
    exact ih (min init a) (le_min h (hall a (List.mem_cons_self a l)))
      (fun y hy => hall y (List.mem_cons_of_mem a hy))

/-- The squared distance to the nearest chosen centroid is non-negative. -/
theorem sqDistToNearest_nonneg (c : Vec4 ℝ) (cs : List (Vec4 ℝ)) (x : Vec4 ℝ) :
    0 ≤ sqDistToNearest c cs x := by
  unfold sqDistToNearest
  refine foldl_min_nonneg _ _ (euclidean_distance_squared_nonneg c x) ?_
  intro y hy
  rcases List.mem_map.1 hy with ⟨cg, _, rfl⟩
  exact euclidean_distance_squared_nonneg cg x

/-- Scanning square roots with the `if`-minimum equals the square root of
the minimum, for non-negative inputs. -/
theorem foldl_sqrt_min : ∀ (ys : List ℝ) (m : ℝ), 0 ≤ m → (∀ y ∈ ys, 0 ≤ y) →
    ys.foldl (fun l y => if Real.sqrt y < l then Real.sqrt y else l)
        (Real.sqrt m) =
      Real.sqrt (ys.foldl min m) := by
  intro ys
  induction ys with
  | nil =>
    intro m _ _
    rfl
  | cons y ys ih =>
    intro m hm hall
    have hy : 0 ≤ y := hall y (List.mem_cons_self y ys)
    rw [List.foldl_cons, List.foldl_cons]
    have hhead : (if Real.sqrt y < Real.sqrt m then Real.sqrt y else Real.sqrt m) =
        Real.sqrt (min m y) := by
      rcases lt_or_ge y m with h | h
      · rw [if_pos ((Real.sqrt_lt_sqrt_iff hy).2 h), min_eq_right (le_of_lt h)]
      · rw [if_neg (by
          intro hlt
          exact absurd ((Real.sqrt_lt_sqrt_iff hy).1 hlt) (not_lt.2 h)),
          min_eq_left h]
    rw [hhead]
    exact ih (min m y) (le_min hm hy)
      (fun z hz => hall z (List.mem_cons_of_mem y hz))

/-- Under the Euclidean metric the running minimum of the scan is the
square root of the squared distance to the nearest chosen centroid. -/
theorem minDistList_euclid (c : Vec4 ℝ) (cs : List (Vec4 ℝ)) (x : Vec4 ℝ) :
    minDistList euclidean_distance c cs x =
      Real.sqrt (sqDistToNearest c cs x) := by
  have h1 : minDistList euclidean_distance c cs x =
      (cs.map (fun cg => euclidean_distance_squared cg x)).foldl
        (fun l y => if Real.sqrt y < l then Real.sqrt y else l)
        (Real.sqrt (euclidean_distance_squared c x)) := by
    unfold minDistList euclidean_distance
    exact (List.foldl_map (fun cg => euclidean_distance_squared cg x)
      (fun l y => if Real.sqrt y < l then Real.sqrt y else l) cs
      (Real.sqrt (euclidean_distance_squared c x))).symm
  rw [h1, foldl_sqrt_min _ _ (euclidean_distance_squared_nonneg c x) ?_]
  · rfl
  · intro y hy
    rcases List.mem_map.1 hy with ⟨cg, _, rfl⟩
    exact euclidean_distance_squared_nonneg cg x

/-- C4 amended: the per-sample seeding weight is the square of the
minimum configured-metric distance, so under the Euclidean metric it
equals the squared Euclidean distance to the nearest chosen centroid,
while under the EuclideanSquared metric it equals the square of that
squared distance (the fourth power of the Euclidean distance), not the
squared distance itself. -/
theorem c4_amended (c : Vec4 ℝ) (cs : List (Vec4 ℝ)) (x : Vec4 ℝ) :
    seedWeight euclidean_distance c cs x = sqDistToNearest c cs x ∧
    seedWeight euclidean_distance_squared c cs x =
      sqDistToNearest c cs x * sqDistToNearest c cs x := by
  constructor
  · unfold seedWeight
    rw [minDistList_euclid]
    exact Real.mul_self_sqrt (sqDistToNearest_nonneg c cs x)
  · unfold seedWeight
    rw [minDistList_sq_eq]

/-- C4 counterexample: with one chosen centroid at the origin and a sample
at distance 2, the squared Euclidean distance to the nearest centroid is
4, but under the EuclideanSquared metric the seeding weight is
`4 * 4 = 16` — the minimum metric distance is squared once more, refuting
the claim that the weight equals the squared Euclidean distance
regardless of the metric variant. -/
theorem c4_counterexample :
    seedWeight euclidean_distance_squared (⟨0, 0, 0, 0⟩ : Vec4 ℝ) []
        ⟨2, 0, 0, 0⟩ = 16 ∧
    sqDistToNearest (⟨0, 0, 0, 0⟩ : Vec4 ℝ) [] ⟨2, 0, 0, 0⟩ = 4 ∧
    (16 : ℝ) ≠ 4 := by
  refine ⟨?_, ?_, by norm_num⟩
  · show euclidean_distance_squared (⟨0, 0, 0, 0⟩ : Vec4 ℝ) ⟨2, 0, 0, 0⟩ *
      euclidean_distance_squared (⟨0, 0, 0, 0⟩ : Vec4 ℝ) ⟨2, 0, 0, 0⟩ = 16
    unfold euclidean_distance_squared
    norm_num
  · show euclidean_distance_squared (⟨0, 0, 0, 0⟩ : Vec4 ℝ) ⟨2, 0, 0, 0⟩ = 4
    unfold euclidean_distance_squared
    norm_num
